import Mathlib

/-!
Shallow embedding of the Resume-Screening-AI matching engine.

Each definition mirrors one Python function of the repository
(`app/matcher.py`, `app/skills.py`, `app/pipeline.py`, `eval/matrices.py`).
Python floats are modelled as exact rationals (`ℚ`), Python exceptions as
`Except String`, and the external sentence-embedding model as an oracle
function passed explicitly.  Regular-expression behaviour is modelled by a
small backtracking matcher whose priority order follows Python's `re`
module (leftmost match, greedy/lazy quantifiers, case-insensitive literal
comparison) for exactly the character-class/star/optional/literal shapes
occurring in the source patterns.
-/

namespace ResumeAI

/-! ## eval/matrices.py -/

/-- Python list slicing `xs[:k]` where `k` is a Python `int` (possibly
negative: `xs[:-m]` drops the last `m` elements). -/
def pySlice (xs : List Bool) (k : Int) : List Bool :=
  if 0 ≤ k then xs.take k.toNat
  else xs.take (xs.length - (-k).toNat)

/-- `sum(top_k)` on a Python list of booleans counts the `True` entries. -/
def countTrue (xs : List Bool) : Nat := (xs.filter id).length

/-- `precision_at_k` from `eval/matrices.py`.  `none` models the
`ZeroDivisionError` raised by `sum(top_k) / k` when the effective `k` is 0. -/
def precision_at_k (relevant_items : List Bool) (k : Int) : Option ℚ :=
  let k2 : Int := if (relevant_items.length : Int) < k then (relevant_items.length : Int) else k
  let top_k := pySlice relevant_items k2
  if k2 = 0 then none
  else some ((countTrue top_k : ℚ) / (k2 : ℚ))

/-! ## app/matcher.py : similarity and skill scores -/

/-- Dot product of two equal-length real vectors (trailing elements of the
longer vector are ignored, as with `zip`). -/
def dot (u v : List ℚ) : ℚ := (List.zipWith (· * ·) u v).sum

/-- Squared Euclidean norm. -/
def normSq (u : List ℚ) : ℚ := dot u u

/-- `sklearn.metrics.pairwise.cosine_similarity` on one pair of vectors is
`dot u v / (‖u‖ * ‖v‖)`.  The matcher only ever calls it on the output of
`model.encode(..., normalize_embeddings=True)`, whose vectors have unit
Euclidean norm, so the divisor is 1 and the call is modelled as the plain
dot product; theorems that need this carry `normSq _ = 1` hypotheses. -/
def cosine_similarity (u v : List ℚ) : ℚ := dot u v

/-- Python regex `\s` / `str.strip` whitespace (ASCII fragment). -/
def isPySpace (c : Char) : Bool :=
  c = ' ' || c = '\t' || c = '\n' || c = '\r' || c = '\u000B' || c = '\u000C'

/-- Python `not text.strip()`: the string is empty or whitespace-only
(stripping removes every character exactly when all are whitespace). -/
def isBlank (s : String) : Bool := s.data.all isPySpace

/-- The embedding oracle: one call of
`self.model.encode([text1, text2], normalize_embeddings=True)`, producing
the two embedding vectors or raising. -/
def EncodeFn : Type := String → String → Except String (List ℚ × List ℚ)

/-- `ResumeMatcher.calculate_semantic_similarity`.  The `try/except` around
the body catches any embedding failure and returns `0.0`. -/
def calculate_semantic_similarity (encode : EncodeFn) (text1 text2 : String) : ℚ :=
  if isBlank text1 || isBlank text2 then 0
  else
    match encode text1 text2 with
    | Except.ok (e0, e1) => cosine_similarity e0 e1
    | Except.error _ => 0

/-- `ResumeMatcher.calculate_skill_coverage`:
`|set(resume) ∩ set(jd)| / |set(jd)|`, or `0.0` for an empty `jd_skills`
list. -/
def calculate_skill_coverage (resume_skills jd_skills : List String) : ℚ :=
  if jd_skills.isEmpty then 0
  else ((resume_skills.toFinset ∩ jd_skills.toFinset).card : ℚ) / (jd_skills.toFinset.card : ℚ)

/-- `ResumeMatcher.calculate_skill_density`:
`|set(resume) ∩ set(jd)| / |set(resume)|`, or `0.0` for an empty
`resume_skills` list. -/
def calculate_skill_density (resume_skills jd_skills : List String) : ℚ :=
  if resume_skills.isEmpty then 0
  else ((resume_skills.toFinset ∩ jd_skills.toFinset).card : ℚ) / (resume_skills.toFinset.card : ℚ)

/-! ## app/models.py -/

/-- `Resume` pydantic model (fields relevant to matching). -/
structure Resume where
  raw_text : String
  email : Option String := none
  phone : Option String := none
  skills : List String := []
  skills_by_category : List (String × List String) := []
  experience : ℚ := 0
  education : Option String := none
deriving DecidableEq, Repr

/-- `JobDescription` pydantic model. -/
structure JobDescription where
  raw_text : String
  required_skills : List String := []
  preferred_skills : List String := []
  skills_by_category : List (String × List String) := []
  title : Option String := none
  company : Option String := none
deriving DecidableEq, Repr

/-- The `skills` property: all skills, required first then preferred. -/
def JobDescription.skills (jd : JobDescription) : List String :=
  jd.required_skills ++ jd.preferred_skills

/-- `MatchResult` pydantic model. -/
structure MatchResult where
  resume : Resume
  job_description : JobDescription
  similarity_score : ℚ
  skill_coverage : ℚ
  skill_density : ℚ
  matching_skills : List String
  missing_skills : List String
  explanation : String
deriving DecidableEq, Repr

/-- Constructing a `MatchResult` runs pydantic validation: the three scores
carry `ge=0.0, le=1.0` constraints; violating them raises a
`ValidationError`. -/
def mkMatchResult (resume : Resume) (jd : JobDescription)
    (similarity_score skill_coverage skill_density : ℚ)
    (matching_skills missing_skills : List String) (explanation : String) :
    Except String MatchResult :=
  if 0 ≤ similarity_score ∧ similarity_score ≤ 1
      ∧ 0 ≤ skill_coverage ∧ skill_coverage ≤ 1
      ∧ 0 ≤ skill_density ∧ skill_density ≤ 1 then
    Except.ok
      { resume := resume, job_description := jd,
        similarity_score := similarity_score, skill_coverage := skill_coverage,
        skill_density := skill_density, matching_skills := matching_skills,
        missing_skills := missing_skills, explanation := explanation }
  else Except.error "ValidationError"

/-! ## app/matcher.py : explanation and match -/

/-- `ResumeMatcher._generate_explanation`.  The Python constants `0.4`,
`0.2`, `0.8`, ... are modelled by the exact rationals they denote. -/
def generate_explanation (similarity coverage density : ℚ)
    (matching missing : List String) : String :=
  let overall_score := 2/5 * similarity + 2/5 * coverage + 1/5 * density
  let p1 :=
    if 4/5 ≤ overall_score then "Excellent overall match for this position."
    else if 3/5 ≤ overall_score then "Good match with some areas for improvement."
    else if 2/5 ≤ overall_score then "Moderate match - consider additional preparation."
    else "Limited match - significant gaps identified."
  let p2 :=
    if 7/10 ≤ similarity then "Excellent semantic alignment with the job description."
    else if 1/2 ≤ similarity then "Good semantic similarity with the role requirements."
    else "Limited semantic similarity with the job description."
  let p3 :=
    if 4/5 ≤ coverage then "Excellent skill coverage for this role."
    else if 3/5 ≤ coverage then "Good skill match for most requirements."
    else if 2/5 ≤ coverage then "Moderate skill coverage - some gaps exist."
    else "Significant skill gaps for this position."
  let parts := [p1, p2, p3]
    ++ (if matching.isEmpty then []
        else ["Strong skills in: " ++ String.intercalate ", " (matching.take 5) ++ "."])
    ++ (if missing.isEmpty then []
        else ["Consider developing skills in: " ++ String.intercalate ", " (missing.take 3) ++ "."])
  String.intercalate " " parts

/-- `list(set(resume) & set(jd))`: one canonical enumeration of the
intersection (Python's set iteration order is unspecified; all claims about
these lists are set-level). -/
def interList (xs ys : List String) : List String :=
  xs.dedup.filter (fun s => decide (s ∈ ys))

/-- `list(set(jd) - set(resume))`: one canonical enumeration of the
difference. -/
def diffList (ys xs : List String) : List String :=
  ys.dedup.filter (fun s => decide (s ∉ xs))

/-- `ResumeMatcher.match_resume_to_jd`.  The `resume.raw_text if ... else ""`
guards are no-ops because `raw_text` is a required string field and an empty
string is passed through unchanged.  `_safe_get_skills` reduces to reading
the (always-present, list-valued) `skills` attribute. -/
def match_resume_to_jd (encode : EncodeFn) (resume : Resume) (jd : JobDescription) :
    Except String MatchResult :=
  let resume_skills := resume.skills
  let jd_skills := jd.skills
  let similarity_score := calculate_semantic_similarity encode resume.raw_text jd.raw_text
  let skill_coverage := calculate_skill_coverage resume_skills jd_skills
  let skill_density := calculate_skill_density resume_skills jd_skills
  let matching_skills := interList resume_skills jd_skills
  let missing_skills := diffList jd_skills resume_skills
  let explanation := generate_explanation similarity_score skill_coverage skill_density
      matching_skills missing_skills
  mkMatchResult resume jd similarity_score skill_coverage skill_density
      matching_skills missing_skills explanation

/-! ## app/skills.py : normalize

`normalize` lower-cases, expands a fixed table of abbreviations when they
occur as standalone regex words (`\bml\b` etc.), replaces every character
outside `[a-z0-9+#.\- ]` by a space, collapses whitespace runs and strips.
The regex fragments are modelled at the character-list level; `\w` and `\s`
are modelled by their ASCII fragments (the ontology and all claim inputs are
ASCII). -/

/-- Python regex `\w` (ASCII fragment): letters, digits, underscore. -/
def isWordChar (c : Char) : Bool := c.isAlphanum || c = '_'

/-- Python `str.lower` on ASCII letters. -/
def lowerChar (c : Char) : Char :=
  if 'A' ≤ c && c ≤ 'Z' then Char.ofNat (c.toNat + 32) else c

/-- The character class `[a-z0-9+#.\- ]` kept by the punctuation-stripping
substitution. -/
def keptChar (c : Char) : Bool :=
  ('a' ≤ c && c ≤ 'z') || ('0' ≤ c && c ≤ '9')
    || c = '+' || c = '#' || c = '.' || c = '-' || c = ' '

/-- `\b` seen from the left of a word-char pattern: start of string or a
non-word previous character. -/
def prevBoundary : Option Char → Bool
  | none => true
  | some c => !(isWordChar c)

/-- `\b` seen from the right of a word-char pattern: end of string or a
non-word next character. -/
def nextBoundary : List Char → Bool
  | [] => true
  | d :: _ => !(isWordChar d)

/-- `re.sub(r"\b<pat>\b", repl, text)` for a non-empty literal word
`p :: ps` consisting of word characters.  Matching is done on the original
text (replacements are emitted but never rescanned), exactly as `re.sub`
resumes after the end of each match.  The first argument is structural
fuel; every step consumes at least one input character, so fuel equal to
the input length (as passed by `subWordStr`) is never exhausted. -/
def subWord (p : Char) (ps : List Char) (repl : List Char) :
    Nat → Option Char → List Char → List Char
  | 0, _, rest => rest
  | _ + 1, _, [] => []
  | fuel + 1, prev, c :: cs =>
    if prevBoundary prev && (p :: ps).isPrefixOf (c :: cs)
        && nextBoundary (cs.drop ps.length) then
      repl ++ subWord p ps repl fuel (some ((p :: ps).getLastD c)) (cs.drop ps.length)
    else
      c :: subWord p ps repl fuel (some c) cs

/-- String-level wrapper for one abbreviation substitution. -/
def subWordStr (pat repl : String) (s : List Char) : List Char :=
  match pat.data with
  | [] => s
  | p :: ps => subWord p ps repl.data s.length none s

/-- The six chained `re.sub` abbreviation expansions of `normalize`, in
source order. -/
def applySubs (s : List Char) : List Char :=
  subWordStr "devops" "devops"
    (subWordStr "api" "rest apis"
      (subWordStr "ux" "user experience"
        (subWordStr "ui" "user interface"
          (subWordStr "ai" "artificial intelligence"
            (subWordStr "ml" "machine learning" s)))))

/-- `re.sub(r"[^a-z0-9+#.\- ]", " ", text)`. -/
def stripPunct (s : List Char) : List Char :=
  s.map (fun c => if keptChar c then c else ' ')

/-- Worker for `re.sub(r"\s+", " ", text)`: the flag records whether the
previous input character was whitespace (in which case the current run's
single replacement space has already been emitted). -/
def squeezeGo (prevWS : Bool) : List Char → List Char
  | [] => []
  | c :: cs =>
    if isPySpace c then
      if prevWS then squeezeGo true cs else ' ' :: squeezeGo true cs
    else c :: squeezeGo false cs

/-- `re.sub(r"\s+", " ", text)`: collapse each whitespace run to one space. -/
def squeezeWS (s : List Char) : List Char := squeezeGo false s

/-- `str.strip()` from the left. -/
def lstripWS (s : List Char) : List Char := s.dropWhile isPySpace

/-- `str.strip()` from the right. -/
def rstripWS (s : List Char) : List Char := (s.reverse.dropWhile isPySpace).reverse

/-- `str.strip()`. -/
def stripWS (s : List Char) : List Char := rstripWS (lstripWS s)

/-- `normalize` from `app/skills.py`. -/
def normalize (text : String) : String :=
  if text = "" then ""
  else
    String.mk (stripWS (squeezeWS (stripPunct (applySubs (text.data.map lowerChar)))))

/-- Canonicity predicate: every whitespace character of the list is a plain
space. -/
def wsIsSpace (s : List Char) : Prop := ∀ c ∈ s, isPySpace c = true → c = ' '

/-- Canonicity predicate: no two adjacent whitespace characters. -/
def noTwoWS (s : List Char) : Prop :=
  s.Chain' (fun a b => ¬(isPySpace a = true ∧ isPySpace b = true))

/-- Canonicity predicate: every character is in the kept class
`[a-z0-9+#.\- ]`. -/
def allKept (s : List Char) : Prop := ∀ c ∈ s, keptChar c = true

/-! ## app/skills.py : load_ontology -/

/-- Values produced by `yaml.safe_load`. -/
inductive YVal where
  | s (v : String)
  | i (v : Int)
  | b (v : Bool)
  | nullv
  | list (vs : List YVal)
  | map (kvs : List (YVal × YVal))

/-- `isinstance(x, str)`. -/
def isYStr : YVal → Bool
  | .s _ => true
  | _ => false

/-- The string payload of a string node. -/
def yStrVal : YVal → String
  | .s v => v
  | _ => ""

/-- The validation loop of `load_ontology`: each category value must be a
list whose entries are all strings; the first violation (in mapping order)
raises a `ValueError`. -/
def validateCats : List (YVal × YVal) → Except String (List (YVal × List String))
  | [] => .ok []
  | (k, v) :: rest =>
    match v with
    | .list xs =>
      if xs.all isYStr then
        match validateCats rest with
        | .ok tail => .ok ((k, xs.map yStrVal) :: tail)
        | .error e => .error e
      else .error "All skills in category must be strings"
    | _ => .error "Category must contain a list of skills"

/-- `load_ontology` from `app/skills.py`.  The input models the outcome of
reading and parsing the source: `none` = file missing (`FileNotFoundError`),
`some (.error _)` = malformed YAML (`yaml.YAMLError`), `some (.ok v)` = the
parsed document. -/
def load_ontology (src : Option (Except String YVal)) :
    Except String (List (YVal × List String)) :=
  match src with
  | none => .error "FileNotFoundError: Ontology file not found"
  | some (.error e) => .error ("YAMLError: " ++ e)
  | some (.ok v) =>
    match v with
    | .map kvs => validateCats kvs
    | _ => .error "Ontology must be a dictionary"

/-- One category entry is well-shaped: its value is a list of strings. -/
def catOk : YVal × YVal → Bool := fun kv =>
  match kv.2 with
  | .list xs => xs.all isYStr
  | _ => false

/-- Claim-side shape predicate: the source exists, parses, and is a mapping
whose values are lists of strings. -/
def wellShaped (src : Option (Except String YVal)) : Bool :=
  match src with
  | some (.ok (.map kvs)) => kvs.all catOk
  | _ => false

/-! ## app/pipeline.py : experience extraction

The five experience regexes and the date-range regex use only literal
words (case-insensitive), the classes `\d`, `\s`, `\w`, `.`, greedy `*`/`+`
on single-character classes, lazy `.*?`, and `+?`-free optionals, so they
are modelled by a small backtracking matcher.  A matcher returns the
candidate (capture, remaining-suffix) pairs in Python's backtracking
priority order; the head of the list is the match `re` would produce. -/

/-- A matcher: priority-ordered candidate results on a suffix. -/
def Mr : Type := List Char → List (Option (List Char) × List Char)

/-- The empty pattern. -/
def mEps : Mr := fun s => [(none, s)]

/-- Sequencing, preserving backtracking priority order. -/
def mSeq (a b : Mr) : Mr := fun s =>
  (a s).flatMap fun pr =>
    (b pr.2).map fun qr =>
      (match pr.1 with
       | some cap => some cap
       | none => qr.1, qr.2)

/-- Sequence a list of matchers. -/
def mSeqs (ms : List Mr) : Mr := ms.foldr mSeq mEps

/-- A single character from a class. -/
def mChr (p : Char → Bool) : Mr := fun s =>
  match s with
  | [] => []
  | c :: cs => if p c then [(none, cs)] else []

/-- A case-insensitive literal (`re.IGNORECASE`; pattern given lowercase). -/
def mLit (w : String) : Mr := fun s =>
  if (s.take w.data.length).map lowerChar = w.data then
    [(none, s.drop w.data.length)]
  else []

/-- Greedy star over a character class: longest first. -/
def mStarG (p : Char → Bool) : Mr := fun s =>
  let n := (s.takeWhile p).length
  (List.range (n + 1)).map fun k => (none, s.drop (n - k))

/-- Lazy star over a character class: shortest first. -/
def mStarL (p : Char → Bool) : Mr := fun s =>
  let n := (s.takeWhile p).length
  (List.range (n + 1)).map fun k => (none, s.drop k)

/-- Greedy optional single character (`\+?`). -/
def mOpt (p : Char → Bool) : Mr := fun s =>
  match s with
  | [] => [(none, [])]
  | c :: cs => if p c then [(none, cs), (none, c :: cs)] else [(none, c :: cs)]

/-- `(\d+)`: greedy digit run with capture, longest first. -/
def mDigits : Mr := fun s =>
  let run := s.takeWhile Char.isDigit
  if run.isEmpty then []
  else (List.range run.length).map fun k =>
    (some (run.take (run.length - k)), s.drop (run.length - k))

/-- Alternation, left alternative first. -/
def mAlt (a b : Mr) : Mr := fun s => a s ++ b s

/-- `re.findall` scan: attempt a match at each position, record the group of
each match, resume after the matched text (advancing one character after a
zero-width match).  Fuel `|s| + 1` suffices since every step consumes or
advances at least one character. -/
def findallAux (m : Mr) : Nat → List Char → List (Option (List Char))
  | 0, _ => []
  | fuel + 1, s =>
    match (m s).head? with
    | some (cap, rest) =>
      if rest.length < s.length then cap :: findallAux m fuel rest
      else
        match s with
        | [] => [cap]
        | _ :: tail => cap :: findallAux m fuel tail
    | none =>
      match s with
      | [] => []
      | _ :: tail => findallAux m fuel tail

/-- `re.findall(pattern, text)` (group-1 captures). -/
def findall (m : Mr) (s : List Char) : List (Option (List Char)) :=
  findallAux m (s.length + 1) s

/-- `\s\w` union class used by `[\s\w]*`. -/
def isWordOrWS (c : Char) : Bool := isWordChar c || isPySpace c

/-- `.` outside DOTALL: any character except newline. -/
def isDotChar (c : Char) : Bool := c ≠ '\n'

/-- The class `[\s\-–]` of the date-range pattern. -/
def isDashWS (c : Char) : Bool := isPySpace c || c = '-' || c = '–'

/-- `r'(\d+)\s*\+?\s*years?[\s\w]*experience'` -/
def pat1 : Mr := mSeqs [mDigits, mStarG isPySpace, mOpt (fun c => c = '+'),
  mStarG isPySpace, mLit "year", mOpt (fun c => lowerChar c = 's'),
  mStarG isWordOrWS, mLit "experience"]

/-- `r'experience.*?(\d+)\s*\+?\s*years?'` -/
def pat2 : Mr := mSeqs [mLit "experience", mStarL isDotChar, mDigits,
  mStarG isPySpace, mOpt (fun c => c = '+'), mStarG isPySpace, mLit "year",
  mOpt (fun c => lowerChar c = 's')]

/-- `r'(\d+)\s*\+?\s*years?.*?experience'` -/
def pat3 : Mr := mSeqs [mDigits, mStarG isPySpace, mOpt (fun c => c = '+'),
  mStarG isPySpace, mLit "year", mOpt (fun c => lowerChar c = 's'),
  mStarL isDotChar, mLit "experience"]

/-- `r'(\d+)\s*yr'` -/
def pat4 : Mr := mSeqs [mDigits, mStarG isPySpace, mLit "yr"]

/-- `r'(\d+)\s*yr\.'` -/
def pat5 : Mr := mSeqs [mDigits, mStarG isPySpace, mLit "yr",
  mChr (fun c => c = '.')]

/-- `\d{4}` -/
def d4 : Mr := mSeqs [mChr Char.isDigit, mChr Char.isDigit, mChr Char.isDigit,
  mChr Char.isDigit]

/-- `r'(\d{4}[\s\-–]*\d{4}|\d{4}[\s\-–]*(?:present|current|now))'` -/
def datePat : Mr :=
  mAlt (mSeqs [d4, mStarG isDashWS, d4])
    (mSeqs [d4, mStarG isDashWS,
      mAlt (mLit "present") (mAlt (mLit "current") (mLit "now"))])

/-- The pattern list of `_extract_experience`, in source order. -/
def experiencePatterns : List Mr := [pat1, pat2, pat3, pat4, pat5]

/-- Numeric value of a digit string (`float(match)` on a `\d+` capture). -/
def digitsVal (ds : List Char) : Nat :=
  ds.foldl (fun acc c => 10 * acc + (c.toNat - 48)) 0

/-- `[float(match) for match in matches if match.isdigit()]`.  Each float
is the exact integer value of a digit string, so the list is modelled at
`Nat` and cast to `ℚ` once at the end. -/
def matchNums (caps : List (Option (List Char))) : List Nat :=
  caps.filterMap fun c =>
    match c with
    | some d => if !d.isEmpty && d.all Char.isDigit then some (digitsVal d) else none
    | none => none

/-- The `for pattern in patterns` loop: the first pattern whose `findall` is
non-empty decides the result via `max(...)`.  `foldl max 0` equals that
maximum because every value is a non-negative integer; were the filtered
list empty, `max([])` would raise a `ValueError` caught by the surrounding
`except`, returning `0.0` — the same value. -/
def tryPatterns : List Mr → List Char → Option Nat
  | [], _ => none
  | p :: ps, s =>
    let ms := findall p s
    if ms.isEmpty then tryPatterns ps s
    else some ((matchNums ms).foldl max 0)

/-- `ProcessingPipeline._extract_experience`.  The float result is always
the cast of a natural number (`max` of digit values, a capped count, or
`0.0`). -/
def _extract_experience (text : String) : ℚ :=
  match tryPatterns experiencePatterns text.data with
  | some v => (v : ℚ)
  | none =>
    let dates := findall datePat text.data
    if !dates.isEmpty then ((min dates.length 15 : Nat) : ℚ)
    else 0

/-- Claim-side restatement of the experience heuristic, following the
spec's words: the first pattern (in fixed order) yielding one or more
numeric matches contributes the maximum value matched; otherwise
`min(#date-ranges, 15)`; otherwise `0.0`. -/
def expSpec (t : String) : ℚ :=
  match experiencePatterns.find? (fun p => !(findall p t.data).isEmpty) with
  | some p => (((matchNums (findall p t.data)).max?).getD 0 : ℚ)
  | none =>
    if (findall datePat t.data).isEmpty then 0
    else ((min (findall datePat t.data).length 15 : Nat) : ℚ)

/-! ## app/pipeline.py : batch processing -/

/-- `ProcessingPipeline.process_multiple_resumes`.  `process_resume` is the
per-file operation (an oracle covering the external text extraction).  The
loop appends each success to `resumes` and each failing path to a local
`failed_files` list that is only logged; only `resumes` is returned. -/
def process_multiple_resumes (process_resume : String → Except String Resume)
    (file_paths : List String) : List Resume :=
  file_paths.foldl
    (fun resumes p =>
      match process_resume p with
      | .ok r => resumes ++ [r]
      | .error _ => resumes)
    []

/-- Claim-side definition following the spec's words: a batch variant
`processMultiple(paths) -> (successes, failures)` that processes each path
independently, continues past individual failures and reports them by
path. -/
def processMultipleSpec (process_resume : String → Except String Resume)
    (paths : List String) : List Resume × List String :=
  paths.foldl
    (fun acc p =>
      match process_resume p with
      | .ok r => (acc.1 ++ [r], acc.2)
      | .error _ => (acc.1, acc.2 ++ [p]))
    ([], [])

/-! ## Concrete instances used by the claim theorems -/

/-- An embedding oracle that always fails (model failure). -/
def encFail : EncodeFn := fun _ _ => Except.error "model failure"

/-- An embedding oracle returning the unit vector `[1]` for both texts. -/
def encUnit : EncodeFn := fun _ _ => Except.ok ([1], [1])

/-- An embedding oracle returning empty vectors. -/
def encNil : EncodeFn := fun _ _ => Except.ok ([], [])

/-- An embedding oracle returning two opposite unit vectors. -/
def encOpp : EncodeFn := fun _ _ => Except.ok ([1, 0], [-1, 0])

/-- A resume with no extracted skills. -/
def rPlain : Resume := { raw_text := "python developer resume" }

/-- A job description with no skills. -/
def jdPlain : JobDescription := { raw_text := "backend engineer position" }

/-- A resume with no skills, matched against `jdPreferred`. -/
def rNoSkills : Resume := { raw_text := "generalist resume" }

/-- A job description whose only skill is a preferred one. -/
def jdPreferred : JobDescription :=
  { raw_text := "job wanting python", preferred_skills := ["python"] }

/-- A per-file processing oracle that fails on `bad.pdf` only. -/
def procBad : String → Except String Resume := fun p =>
  if p = "bad.pdf" then Except.error "UnsupportedFormatError"
  else Except.ok { raw_text := "parsed resume text" }

/-- A parsed-but-ill-labelled ontology source: one category whose skill list
contains the empty string. -/
def srcEmptyLabel : Option (Except String YVal) :=
  some (Except.ok (YVal.map [(YVal.s "languages", YVal.list [YVal.s ""])]))

/-- A parsed ontology source with a non-string (integer) category key. -/
def srcIntKey : Option (Except String YVal) :=
  some (Except.ok (YVal.map [(YVal.i 3, YVal.list [YVal.s "python"])]))

/-! ## Helper lemmas -/

theorem skill_coverage_nonneg (R J : List String) : 0 ≤ calculate_skill_coverage R J := by
  unfold calculate_skill_coverage
  split
  · exact le_refl 0
  · positivity

theorem skill_coverage_le_one (R J : List String) : calculate_skill_coverage R J ≤ 1 := by
  unfold calculate_skill_coverage
  split
  · norm_num
  · exact div_le_one_of_le₀
      (by exact_mod_cast Finset.card_le_card Finset.inter_subset_right)
      (by positivity)

theorem skill_density_nonneg (R J : List String) : 0 ≤ calculate_skill_density R J := by
  unfold calculate_skill_density
  split
  · exact le_refl 0
  · positivity

theorem skill_density_le_one (R J : List String) : calculate_skill_density R J ≤ 1 := by
  unfold calculate_skill_density
  split
  · norm_num
  · exact div_le_one_of_le₀
      (by exact_mod_cast Finset.card_le_card Finset.inter_subset_left)
      (by positivity)

theorem match_resume_to_jd_def (encode : EncodeFn) (r : Resume) (jd : JobDescription) :
    match_resume_to_jd encode r jd = mkMatchResult r jd
      (calculate_semantic_similarity encode r.raw_text jd.raw_text)
      (calculate_skill_coverage r.skills jd.skills)
      (calculate_skill_density r.skills jd.skills)
      (interList r.skills jd.skills)
      (diffList jd.skills r.skills)
      (generate_explanation
        (calculate_semantic_similarity encode r.raw_text jd.raw_text)
        (calculate_skill_coverage r.skills jd.skills)
        (calculate_skill_density r.skills jd.skills)
        (interList r.skills jd.skills)
        (diffList jd.skills r.skills)) := rfl

theorem mkMatchResult_eq_ok {resume : Resume} {jd : JobDescription}
    {sim cov den : ℚ} {mat mis : List String} {expl : String}
    (h : 0 ≤ sim ∧ sim ≤ 1 ∧ 0 ≤ cov ∧ cov ≤ 1 ∧ 0 ≤ den ∧ den ≤ 1) :
    mkMatchResult resume jd sim cov den mat mis expl =
      Except.ok { resume := resume
                  job_description := jd
                  similarity_score := sim
                  skill_coverage := cov
                  skill_density := den
                  matching_skills := mat
                  missing_skills := mis
                  explanation := expl } := by
  unfold mkMatchResult
  exact if_pos h

theorem mkMatchResult_ok_inv {resume : Resume} {jd : JobDescription}
    {sim cov den : ℚ} {mat mis : List String} {expl : String} {res : MatchResult}
    (h : mkMatchResult resume jd sim cov den mat mis expl = Except.ok res) :
    res = { resume := resume
            job_description := jd
            similarity_score := sim
            skill_coverage := cov
            skill_density := den
            matching_skills := mat
            missing_skills := mis
            explanation := expl } := by
  unfold mkMatchResult at h
  split at h
  · injection h with h2
    exact h2.symm
  · exact Except.noConfusion h

theorem normSq_nonneg (u : List ℚ) : 0 ≤ normSq u := by
  induction u with
  | nil => exact le_refl 0
  | cons a u ih =>
    have e : normSq (a :: u) = a * a + normSq u := rfl
    rw [e]
    nlinarith [sq_nonneg a]

theorem dot_sq_le (u v : List ℚ) : dot u v ^ 2 ≤ normSq u * normSq v := by
  induction u generalizing v with
  | nil =>
    have e : dot [] v = 0 := rfl
    rw [e]
    simp [normSq, dot]
  | cons a u ih =>
    cases v with
    | nil =>
      have e : dot (a :: u) [] = 0 := rfl
      have e2 : normSq ([] : List ℚ) = 0 := rfl
      rw [e, e2]
      simp
    | cons b v =>
      have e1 : dot (a :: u) (b :: v) = a * b + dot u v := rfl
      have e2 : normSq (a :: u) = a * a + normSq u := rfl
      have e3 : normSq (b :: v) = b * b + normSq v := rfl
      rw [e1, e2, e3]
      have h1 := ih v
      have h2 := normSq_nonneg u
      have h3 := normSq_nonneg v
      rcases eq_or_lt_of_le h2 with h2e | h2l
      · have hz : dot u v = 0 := by nlinarith [sq_nonneg (dot u v)]
        rw [hz, ← h2e]
        nlinarith [mul_nonneg (sq_nonneg a) h3, sq_nonneg (a * b)]
      · nlinarith [sq_nonneg (a * dot u v - b * normSq u),
          mul_le_mul_of_nonneg_left h1 h2, h2l, mul_nonneg h2 h3,
          sq_nonneg (a * b - dot u v), sq_nonneg (a * b + dot u v)]

/-! ## Claim theorems -/

/-- C1 (corrected, amended part): an embedding failure inside
`calculate_semantic_similarity` is caught there and converted to `0.0`;
`match_resume_to_jd` then returns a normal `MatchResult` whose
`similarity_score` is the defaulted `0.0` instead of propagating the
failure. -/
theorem C1_match_swallows_embedding_failure (encode : EncodeFn)
    (r : Resume) (jd : JobDescription) (e : String)
    (henc : encode r.raw_text jd.raw_text = Except.error e) :
    ∃ res, match_resume_to_jd encode r jd = Except.ok res
      ∧ res.similarity_score = 0 := by
  have hsim : calculate_semantic_similarity encode r.raw_text jd.raw_text = 0 := by
    unfold calculate_semantic_similarity
    rw [henc]
    split <;> rfl
  rw [match_resume_to_jd_def, hsim,
    mkMatchResult_eq_ok ⟨le_refl 0, by norm_num,
      skill_coverage_nonneg _ _, skill_coverage_le_one _ _,
      skill_density_nonneg _ _, skill_density_le_one _ _⟩]
  exact ⟨_, rfl, rfl⟩

/-- C1 witness: a concrete failing oracle on concrete records. -/
theorem C1_witness :
    ∃ res, match_resume_to_jd encFail rPlain jdPlain = Except.ok res
      ∧ res.similarity_score = 0 :=
  C1_match_swallows_embedding_failure encFail rPlain jdPlain "model failure" rfl

/-- C1 counterexample to the claim as stated: the embedding step fails, yet
`match_resume_to_jd` returns a `MatchResult` whose `similarity_score`
silently defaults to `0.0` — the failure does not propagate. -/
theorem C1_counterexample :
    encFail rPlain.raw_text jdPlain.raw_text = Except.error "model failure"
      ∧ (match_resume_to_jd encFail rPlain jdPlain).toOption.map
          (fun res => res.similarity_score) = some 0 := by
  constructor
  · rfl
  · decide

/-- C2 counterexample to the claim as stated: for an embedding output of
two opposite unit vectors the returned value is `-1`, which is negative —
the result is the raw cosine similarity, not clipped into `[0,1]`. -/
theorem C2_counterexample :
    calculate_semantic_similarity encOpp "resume text" "jd text" = -1
      ∧ normSq [1, 0] = 1 ∧ normSq [-1, 0] = 1
      ∧ calculate_semantic_similarity encOpp "resume text" "jd text" < 0 := by
  have h : calculate_semantic_similarity encOpp "resume text" "jd text" = -1 := by
    unfold calculate_semantic_similarity encOpp
    rw [if_neg (by decide)]
    show cosine_similarity [1, 0] [-1, 0] = -1
    unfold cosine_similarity dot
    norm_num
  refine ⟨h, ?_, ?_, by rw [h]; norm_num⟩
  · unfold normSq dot
    norm_num
  · unfold normSq dot
    norm_num

/-- C2 (corrected, amended part): on blank input `0.0` is returned without
consulting the embedding oracle; otherwise the raw (unclipped) cosine
similarity of the two embedding vectors is returned, which for unit-norm
embeddings lies in `[-1,1]` (not `[0,1]`). -/
theorem C2_similarity_range (encode : EncodeFn) (t1 t2 : String) :
    ((isBlank t1 || isBlank t2) = true → calculate_semantic_similarity encode t1 t2 = 0)
    ∧ (∀ u v, encode t1 t2 = Except.ok (u, v) → normSq u = 1 → normSq v = 1 →
        -1 ≤ calculate_semantic_similarity encode t1 t2
          ∧ calculate_semantic_similarity encode t1 t2 ≤ 1) := by
  constructor
  · intro hb
    unfold calculate_semantic_similarity
    rw [if_pos hb]
  · intro u v henc hu hv
    unfold calculate_semantic_similarity
    by_cases hb : (isBlank t1 || isBlank t2) = true
    · rw [if_pos hb]
      norm_num
    · rw [if_neg hb, henc]
      show -1 ≤ cosine_similarity u v ∧ cosine_similarity u v ≤ 1
      have h := dot_sq_le u v
      rw [hu, hv] at h
      have habs : |cosine_similarity u v| ≤ 1 := by
        rw [← sq_le_one_iff_abs_le_one]
        simpa [cosine_similarity] using h
      exact ⟨neg_le_of_abs_le habs, le_of_abs_le habs⟩

/-- C2 witness: a concrete unit-vector oracle on non-blank texts. -/
theorem C2_witness :
    -1 ≤ calculate_semantic_similarity encUnit "some resume" "some job"
      ∧ calculate_semantic_similarity encUnit "some resume" "some job" ≤ 1 :=
  (C2_similarity_range encUnit "some resume" "some job").2 [1] [1] rfl
    (by norm_num [normSq, dot]) (by norm_num [normSq, dot])

/-- C4 (confirmed): `calculate_skill_coverage` is the set-level intersection
ratio, `0.0` on an empty requirement list, bounded in `[0,1]`, and attains
`1` exactly when the requirements are a non-empty subset of the resume
skills. -/
theorem C4_skill_coverage_spec (R J : List String) :
    calculate_skill_coverage R J
        = ((R.toFinset ∩ J.toFinset).card : ℚ) / (J.toFinset.card : ℚ)
      ∧ (J = [] → calculate_skill_coverage R J = 0)
      ∧ (0 ≤ calculate_skill_coverage R J ∧ calculate_skill_coverage R J ≤ 1)
      ∧ (calculate_skill_coverage R J = 1 ↔ J.toFinset ⊆ R.toFinset ∧ J ≠ []) := by
  refine ⟨?_, ?_, ⟨skill_coverage_nonneg R J, skill_coverage_le_one R J⟩, ?_⟩
  · unfold calculate_skill_coverage
    split
    · rename_i hJ
      have hnil : J = [] := by simpa using hJ
      subst hnil
      simp
    · rfl
  · intro hJ
    subst hJ
    rfl
  · constructor
    · intro h1
      by_cases hJ : J = []
      · subst hJ
        rw [show calculate_skill_coverage R [] = 0 from rfl] at h1
        norm_num at h1
      · refine ⟨?_, hJ⟩
        have hpos : 0 < J.toFinset.card := by
          rcases J with _ | ⟨a, J2⟩
          · exact absurd rfl hJ
          · exact Finset.card_pos.mpr ⟨a, by simp⟩
        have hne : ((J.toFinset.card : ℚ)) ≠ 0 := by positivity
        unfold calculate_skill_coverage at h1
        rw [if_neg (by simpa using hJ)] at h1
        rw [div_eq_one_iff_eq hne] at h1
        have hcardN : (R.toFinset ∩ J.toFinset).card = J.toFinset.card := by
          exact_mod_cast h1
        have heq : R.toFinset ∩ J.toFinset = J.toFinset :=
          Finset.eq_of_subset_of_card_le Finset.inter_subset_right (le_of_eq hcardN.symm)
        exact Finset.inter_eq_right.mp heq
    · rintro ⟨hsub, hJ⟩
      have hpos : 0 < J.toFinset.card := by
        rcases J with _ | ⟨a, J2⟩
        · exact absurd rfl hJ
        · exact Finset.card_pos.mpr ⟨a, by simp⟩
      have heq : R.toFinset ∩ J.toFinset = J.toFinset := Finset.inter_eq_right.mpr hsub
      unfold calculate_skill_coverage
      rw [if_neg (by simpa using hJ), heq, div_self (by positivity)]

/-- C4 witness: concrete coverage values obtained through the theorem. -/
theorem C4_witness :
    calculate_skill_coverage ["a"] [] = 0
      ∧ calculate_skill_coverage ["python", "sql", "docker"] ["python", "sql"] = 1 :=
  ⟨(C4_skill_coverage_spec ["a"] []).2.1 rfl,
    (C4_skill_coverage_spec ["python", "sql", "docker"] ["python", "sql"]).2.2.2.mpr
      ⟨by decide, by decide⟩⟩

/-- C9 (confirmed): for a non-empty relevance list and `k ≥ 1`,
`precision_at_k` returns the fraction of true entries among the first
`min(k, length)` positions; in particular
`precision_at_k [true,false,true,true] 2 = 0.5`. -/
theorem C9_precision_at_k_spec :
    (∀ (items : List Bool) (k : Int), items ≠ [] → 1 ≤ k →
      precision_at_k items k
        = some ((countTrue (items.take (min k.toNat items.length)) : ℚ)
            / ((min k.toNat items.length : Nat) : ℚ)))
    ∧ precision_at_k [true, false, true, true] 2 = some (1/2) := by
  have main : ∀ (items : List Bool) (k : Int), items ≠ [] → 1 ≤ k →
      precision_at_k items k
        = some ((countTrue (items.take (min k.toNat items.length)) : ℚ)
            / ((min k.toNat items.length : Nat) : ℚ)) := by
    intro items k hne hk
    have hlen : 0 < items.length := List.length_pos.mpr hne
    simp only [precision_at_k, pySlice]
    by_cases hlt : (items.length : Int) < k
    · rw [if_pos hlt]
      have hmin : min k.toNat items.length = items.length := by omega
      rw [if_neg (by omega), if_pos (by omega), hmin]
      push_cast
      rw [Int.toNat_natCast]
    · rw [if_neg hlt]
      have hmin : min k.toNat items.length = k.toNat := by omega
      rw [if_neg (by omega), if_pos (by omega), hmin]
      have hcast : ((k : ℚ)) = ((k.toNat : Nat) : ℚ) := by
        have h0 : ((k.toNat : Nat) : Int) = k := Int.toNat_of_nonneg (by omega)
        exact_mod_cast h0.symm
      rw [hcast]
  refine ⟨main, ?_⟩
  rw [main [true, false, true, true] 2 (by decide) (by norm_num)]
  norm_num
  rw [show countTrue (List.take (Int.toNat 2) [true, false, true, true]) = 1 from by decide,
    show Int.toNat 2 = 2 from rfl]
  norm_num

/-- C9 witness: the theorem instantiated at a concrete list and `k`. -/
theorem C9_witness : precision_at_k [true] 1 = some 1 := by
  rw [C9_precision_at_k_spec.1 [true] 1 (by decide) (by norm_num)]
  rw [show min (Int.toNat 1) [true].length = 1 from by decide]
  rw [show countTrue (List.take 1 [true]) = 1 from by decide]
  norm_num

/-- C10 (corrected, amended part): on the empty list `precision_at_k`
raises (division by zero) for every `k ≥ 0` — for negative `k` it instead
returns `0/k = 0.0` — and under the precondition (non-empty list, `k ≥ 1`)
the failure branch is unreachable. -/
theorem C10_empty_divzero :
    (∀ k : Int, 0 ≤ k → precision_at_k [] k = none)
    ∧ (∀ (items : List Bool) (k : Int), items ≠ [] → 1 ≤ k →
        (precision_at_k items k).isSome = true) := by
  constructor
  · intro k hk
    simp only [precision_at_k, pySlice, List.length_nil]
    have h0 : (if ((0 : Nat) : Int) < k then ((0 : Nat) : Int) else k) = 0 := by
      split <;> omega
    rw [h0]
    simp
  · intro items k hne hk
    have hlen : 0 < items.length := List.length_pos.mpr hne
    simp only [precision_at_k, pySlice]
    have h0 : (if (items.length : Int) < k then (items.length : Int) else k) ≠ 0 := by
      split <;> omega
    rw [if_neg h0]
    rfl

/-- C10 counterexample to the claim as stated: on the empty list a negative
`k` is not clamped (the guard `len < k` is false), so the call returns the
value `0.0` instead of raising. -/
theorem C10_counterexample :
    precision_at_k [] (-1) = some 0 ∧ precision_at_k [] (-1) ≠ none := by
  have h : precision_at_k [] (-1) = some 0 := by
    simp only [precision_at_k, pySlice, List.length_nil]
    norm_num [countTrue]
  exact ⟨h, by rw [h]; simp⟩

/-- C10 witness: both parts of the amended statement at concrete inputs. -/
theorem C10_witness :
    precision_at_k [] 5 = none ∧ (precision_at_k [false] 2).isSome = true :=
  ⟨C10_empty_divzero.1 5 (by norm_num),
    C10_empty_divzero.2 [false] 2 (by decide) (by norm_num)⟩

/-! ## C3: matching / missing skill sets -/

theorem interList_toFinset (xs ys : List String) :
    (interList xs ys).toFinset = xs.toFinset ∩ ys.toFinset := by
  ext a
  simp [interList, List.mem_filter, List.mem_dedup]

theorem diffList_toFinset (ys xs : List String) :
    (diffList ys xs).toFinset = ys.toFinset \ xs.toFinset := by
  ext a
  simp [diffList, List.mem_filter, List.mem_dedup]

theorem exceptIsOk_ok {ε α : Type} (a : α) : (Except.ok a : Except ε α).isOk = true := rfl

theorem exceptIsOk_error {ε α : Type} (e : ε) :
    (Except.error e : Except ε α).isOk = false := rfl

/-- C3 (corrected, amended part): whenever `match_resume_to_jd` returns a
result, `matching_skills` is (as a set) the intersection of the resume's
skills with the job description's all-skills (required ++ preferred),
`missing_skills` is the all-skills minus the resume's skills — not merely
the required skills minus them — and the two lists are disjoint. -/
theorem C3_match_skill_sets (encode : EncodeFn) (r : Resume) (jd : JobDescription)
    (h : (match_resume_to_jd encode r jd).isOk = true) :
    ∃ res, match_resume_to_jd encode r jd = Except.ok res
      ∧ res.matching_skills.toFinset = r.skills.toFinset ∩ (JobDescription.skills jd).toFinset
      ∧ res.missing_skills.toFinset = (JobDescription.skills jd).toFinset \ r.skills.toFinset
      ∧ Disjoint res.matching_skills.toFinset res.missing_skills.toFinset := by
  cases hm : match_resume_to_jd encode r jd with
  | error e =>
    rw [hm, exceptIsOk_error] at h
    exact absurd h (by simp)
  | ok res =>
    refine ⟨res, rfl, ?_, ?_, ?_⟩ <;>
      rw [mkMatchResult_ok_inv ((match_resume_to_jd_def encode r jd).symm.trans hm)]
    · exact interList_toFinset _ _
    · exact diffList_toFinset _ _
    · show Disjoint (interList r.skills (JobDescription.skills jd)).toFinset
        (diffList (JobDescription.skills jd) r.skills).toFinset
      rw [interList_toFinset, diffList_toFinset]
      refine Finset.disjoint_left.mpr ?_
      intro a ha hb
      exact (Finset.mem_sdiff.mp hb).2 (Finset.mem_inter.mp ha).1

/-- C3 witness: the theorem instantiated at concrete records. -/
theorem C3_witness :
    ∃ res, match_resume_to_jd encNil rPlain jdPlain = Except.ok res
      ∧ res.matching_skills.toFinset
          = rPlain.skills.toFinset ∩ (JobDescription.skills jdPlain).toFinset
      ∧ res.missing_skills.toFinset
          = (JobDescription.skills jdPlain).toFinset \ rPlain.skills.toFinset
      ∧ Disjoint res.matching_skills.toFinset res.missing_skills.toFinset :=
  C3_match_skill_sets encNil rPlain jdPlain (by decide)

/-- C3 counterexample to the claim as stated: a skill that is only
*preferred* (not required) and absent from the resume appears in
`missing_skills`, so `missing_skills` is not `requiredSkills − resume.skills`
(which is empty here). -/
theorem C3_counterexample :
    (match_resume_to_jd encNil rNoSkills jdPreferred).toOption.map
        (fun res => res.missing_skills) = some ["python"]
      ∧ jdPreferred.required_skills = [] ∧ rNoSkills.skills = [] := by
  have hsim : calculate_semantic_similarity encNil rNoSkills.raw_text jdPreferred.raw_text
      = 0 := rfl
  refine ⟨?_, rfl, rfl⟩
  rw [match_resume_to_jd_def,
    mkMatchResult_eq_ok ⟨by rw [hsim], by rw [hsim]; norm_num,
      skill_coverage_nonneg _ _, skill_coverage_le_one _ _,
      skill_density_nonneg _ _, skill_density_le_one _ _⟩]
  decide

/-! ## C6: batch resume processing -/

theorem process_multiple_foldl (proc : String → Except String Resume)
    (paths : List String) (acc : List Resume) :
    paths.foldl
        (fun resumes p =>
          match proc p with
          | .ok r => resumes ++ [r]
          | .error _ => resumes) acc
      = acc ++ paths.filterMap (fun p => (proc p).toOption) := by
  induction paths generalizing acc with
  | nil => simp
  | cons p ps ih =>
    simp only [List.foldl_cons, List.filterMap_cons]
    cases h : proc p with
    | ok r =>
      rw [ih]
      simp [Except.toOption]
    | error e =>
      rw [ih]
      simp [Except.toOption]

theorem processMultipleSpec_foldl (proc : String → Except String Resume)
    (paths : List String) (accR : List Resume) (accF : List String) :
    (paths.foldl
        (fun acc p =>
          match proc p with
          | .ok r => (acc.1 ++ [r], acc.2)
          | .error _ => (acc.1, acc.2 ++ [p])) (accR, accF)).1
      = accR ++ paths.filterMap (fun p => (proc p).toOption) := by
  induction paths generalizing accR accF with
  | nil => simp
  | cons p ps ih =>
    simp only [List.foldl_cons, List.filterMap_cons]
    cases h : proc p with
    | ok r =>
      rw [ih]
      simp [Except.toOption]
    | error e =>
      rw [ih]
      simp [Except.toOption]

/-- C6 (corrected, amended part): the batch operation processes each path
independently and continues past individual failures, but it returns *only*
the successes (in input order); the failed paths are collected and logged
inside the function without being returned.  The successes component of the
spec's `(successes, failures)` contract is exactly what is returned. -/
theorem C6_batch_returns_only_successes (proc : String → Except String Resume)
    (paths : List String) :
    process_multiple_resumes proc paths
        = paths.filterMap (fun p => (proc p).toOption)
      ∧ process_multiple_resumes proc paths = (processMultipleSpec proc paths).1 := by
  constructor
  · unfold process_multiple_resumes
    rw [process_multiple_foldl]
    simp
  · unfold process_multiple_resumes processMultipleSpec
    rw [process_multiple_foldl, processMultipleSpec_foldl]

/-- C6 counterexample to the claim as stated: on a batch with one failing
path the function returns a bare list of successes; the failing path
(`bad.pdf`), which the spec's pair contract would report, is absent from
the return value. -/
theorem C6_counterexample :
    process_multiple_resumes procBad ["good.txt", "bad.pdf"]
        = [{ raw_text := "parsed resume text" }]
      ∧ (processMultipleSpec procBad ["good.txt", "bad.pdf"]).2 = ["bad.pdf"] := by
  decide

/-! ## C8: ontology loading -/

theorem validateCats_isOk (kvs : List (YVal × YVal)) :
    (validateCats kvs).isOk = kvs.all catOk := by
  induction kvs with
  | nil => rfl
  | cons kv rest ih =>
    obtain ⟨k, v⟩ := kv
    cases v with
    | s v => simp [validateCats, exceptIsOk_error, catOk, List.all_cons]
    | i v => simp [validateCats, exceptIsOk_error, catOk, List.all_cons]
    | b v => simp [validateCats, exceptIsOk_error, catOk, List.all_cons]
    | nullv => simp [validateCats, exceptIsOk_error, catOk, List.all_cons]
    | map kvs2 => simp [validateCats, exceptIsOk_error, catOk, List.all_cons]
    | list xs =>
      cases hx : xs.all isYStr with
      | true =>
        cases h : validateCats rest with
        | ok tail =>
          rw [h, exceptIsOk_ok] at ih
          simp [validateCats, hx, h, exceptIsOk_ok, catOk, List.all_cons, ← ih]
        | error e =>
          rw [h, exceptIsOk_error] at ih
          simp [validateCats, hx, h, exceptIsOk_error, catOk, List.all_cons, ← ih]
      | false =>
        simp [validateCats, hx, exceptIsOk_error, catOk, List.all_cons]

/-- C8 (corrected, amended part): the loader succeeds exactly when the
source exists and parses to a mapping all of whose values are lists of
strings; it does not check that keys are strings nor that skill strings are
non-empty.  All other shapes (missing source, parse failure, non-mapping,
non-list value, non-string entry) fail with an error. -/
theorem C8_load_ontology_shape (src : Option (Except String YVal)) :
    (load_ontology src).isOk = wellShaped src := by
  cases src with
  | none => rfl
  | some e =>
    cases e with
    | error m => rfl
    | ok v =>
      cases v with
      | s v => rfl
      | i v => rfl
      | b v => rfl
      | nullv => rfl
      | list vs => rfl
      | map kvs => exact validateCats_isOk kvs

/-- C8 counterexample to the claim as stated: a mapping whose only skill is
the empty string loads successfully (so not every label of a successfully
loaded ontology is non-empty), and a mapping with an integer key also loads
successfully (so string keys are not enforced). -/
theorem C8_counterexample :
    (load_ontology srcEmptyLabel).isOk = true
      ∧ (load_ontology srcEmptyLabel).toOption.map (fun m => m.map (fun kv => kv.2))
          = some [[""]]
      ∧ (load_ontology srcIntKey).isOk = true := by
  decide

/-! ## C7: experience-years inference -/

theorem foldl_max_eq_max?getD (l : List Nat) : l.foldl max 0 = (l.max?).getD 0 := by
  cases l with
  | nil => rfl
  | cons a l =>
    rw [List.max?_cons']
    simp [List.foldl_cons, Nat.zero_max]

theorem tryPatterns_eq_find? (ps : List Mr) (s : List Char) :
    tryPatterns ps s
      = match ps.find? (fun p => !(findall p s).isEmpty) with
        | some p => some ((matchNums (findall p s)).foldl max 0)
        | none => none := by
  induction ps with
  | nil => rfl
  | cons p ps ih =>
    by_cases h : (findall p s).isEmpty
    · simp [tryPatterns, List.find?, h, ih]
    · simp [tryPatterns, List.find?, h]

/-- C7 (confirmed): experience inference tries the five explicit patterns
in their fixed order; the first one with matches contributes the maximum
numeric value matched; otherwise the capped date-range count
`min(count, 15)` is used; otherwise `0.0`.  On the spec's scenario text the
result is `5` (the maximum of the matched values), not `2`. -/
theorem C7_extract_experience_spec :
    (∀ t : String, _extract_experience t = expSpec t)
    ∧ _extract_experience "5 years of experience as well as 2 years as intern" = 5 := by
  have main : ∀ t : String, _extract_experience t = expSpec t := by
    intro t
    unfold _extract_experience expSpec
    rw [tryPatterns_eq_find?]
    cases hf : experiencePatterns.find? (fun p => !(findall p t.data).isEmpty) with
    | some p => simp [foldl_max_eq_max?getD]
    | none =>
      by_cases hd : (findall datePat t.data).isEmpty
      · simp [hd]
      · simp [hd]
  refine ⟨main, ?_⟩
  have h5 : tryPatterns experiencePatterns
      "5 years of experience as well as 2 years as intern".data = some 5 := by decide
  unfold _extract_experience
  rw [h5]
  norm_num

/-! ## C5: normalizer idempotence -/

theorem lowerChar_of_kept (c : Char) (h : keptChar c = true) : lowerChar c = c := by
  unfold keptChar at h
  simp only [Bool.or_eq_true, Bool.and_eq_true, decide_eq_true_eq] at h
  unfold lowerChar
  rw [if_neg]
  simp only [Bool.and_eq_true, decide_eq_true_eq, not_and]
  intro h1 h2
  rcases h with (((((⟨ha, hb⟩ | ⟨ha, hb⟩) | hc) | hc) | hc) | hc) | hc
  · exact absurd (le_trans ha h2) (by decide)
  · exact absurd (le_trans h1 hb) (by decide)
  all_goals (subst hc; exact absurd h1 (by decide))

theorem kept_ws_eq_space (c : Char) (h : keptChar c = true) (hw : isPySpace c = true) :
    c = ' ' := by
  unfold isPySpace at hw
  simp only [Bool.or_eq_true, decide_eq_true_eq] at hw
  rcases hw with ((((h1 | h1) | h1) | h1) | h1) | h1
  · exact h1
  all_goals (subst h1; exact absurd h (by decide))

theorem stripPunct_allKept (s : List Char) : allKept (stripPunct s) := by
  intro c hc
  unfold stripPunct at hc
  rcases List.mem_map.mp hc with ⟨d, hd, rfl⟩
  by_cases hk : keptChar d = true
  · rwa [if_pos hk]
  · rw [if_neg hk]
    decide

theorem stripPunct_of_allKept (s : List Char) (h : allKept s) : stripPunct s = s := by
  unfold stripPunct
  rw [List.map_congr_left (fun c hc => if_pos (h c hc))]
  exact List.map_id' s

theorem map_lowerChar_of_allKept (s : List Char) (h : allKept s) : s.map lowerChar = s := by
  rw [List.map_congr_left (fun c hc => lowerChar_of_kept c (h c hc))]
  exact List.map_id' s

theorem squeezeGo_mem (s : List Char) :
    ∀ (b : Bool) (c : Char), c ∈ squeezeGo b s →
      c = ' ' ∨ (c ∈ s ∧ isPySpace c = false) := by
  induction s with
  | nil =>
    intro b c hc
    simp [squeezeGo] at hc
  | cons a s ih =>
    intro b c hc
    unfold squeezeGo at hc
    by_cases hws : isPySpace a = true
    · rw [if_pos hws] at hc
      cases b with
      | true =>
        rcases ih true c hc with h | ⟨h1, h2⟩
        · exact Or.inl h
        · exact Or.inr ⟨List.mem_cons_of_mem a h1, h2⟩
      | false =>
        rcases List.mem_cons.mp hc with rfl | hc2
        · exact Or.inl rfl
        · rcases ih true c hc2 with h | ⟨h1, h2⟩
          · exact Or.inl h
          · exact Or.inr ⟨List.mem_cons_of_mem a h1, h2⟩
    · rw [if_neg hws] at hc
      rcases List.mem_cons.mp hc with rfl | hc2
      · exact Or.inr ⟨by simp, by simpa using hws⟩
      · rcases ih false c hc2 with h | ⟨h1, h2⟩
        · exact Or.inl h
        · exact Or.inr ⟨List.mem_cons_of_mem a h1, h2⟩

theorem squeezeGo_noTwo (s : List Char) :
    ∀ b : Bool, noTwoWS (squeezeGo b s)
      ∧ (b = true → ∀ d, (squeezeGo b s).head? = some d → isPySpace d = false) := by
  induction s with
  | nil =>
    intro b
    exact ⟨List.chain'_nil, fun _ d hd => by simp [squeezeGo] at hd⟩
  | cons a s ih =>
    intro b
    unfold squeezeGo
    by_cases hws : isPySpace a = true
    · rw [if_pos hws]
      cases b with
      | true => exact ih true
      | false =>
        refine ⟨?_, fun hf => by simp at hf⟩
        refine List.chain'_cons'.mpr ⟨?_, (ih true).1⟩
        intro y hy
        have hny := (ih true).2 rfl y hy
        intro hcon
        rw [hcon.2] at hny
        exact Bool.noConfusion hny
    · rw [if_neg hws]
      have hna : isPySpace a = false := by simpa using hws
      refine ⟨?_, fun _ d hd => ?_⟩
      · refine List.chain'_cons'.mpr ⟨?_, (ih false).1⟩
        intro y hy hcon
        rw [hcon.1] at hna
        exact absurd hna (by simp)
      · rw [List.head?_cons] at hd
        injection hd with hd2
        rw [← hd2]
        exact hna

theorem lstripWS_suffix (s : List Char) : lstripWS s <:+ s :=
  List.dropWhile_suffix isPySpace

theorem rstripWS_prefixOf (s : List Char) : rstripWS s <+: s := by
  unfold rstripWS
  have h := List.reverse_prefix.mpr (List.dropWhile_suffix (l := s.reverse) isPySpace)
  rwa [List.reverse_reverse] at h

theorem stripWS_infixOf (s : List Char) : stripWS s <:+: s :=
  (rstripWS_prefixOf (lstripWS s)).isInfix.trans (lstripWS_suffix s).isInfix

theorem dropWhile_dropWhile (p : Char → Bool) (l : List Char) :
    (l.dropWhile p).dropWhile p = l.dropWhile p := by
  cases h : l.dropWhile p with
  | nil => rfl
  | cons d rest =>
    have hd : p d = false := by
      have h2 := List.head?_dropWhile_not p l
      rw [h] at h2
      simpa using h2
    rw [List.dropWhile_cons_of_neg (by simp [hd])]

theorem dropWhile_eq_self_of_prefix {p : Char → Bool} {t y : List Char}
    (hp : t <+: y) (hy : y.dropWhile p = y) : t.dropWhile p = t := by
  cases t with
  | nil => rfl
  | cons c t2 =>
    obtain ⟨r, hr⟩ := hp
    subst hr
    have hc : p c = false := by
      by_contra hcon
      have hc2 : p c = true := by simpa using hcon
      rw [show (c :: t2) ++ r = c :: (t2 ++ r) from rfl,
        List.dropWhile_cons_of_pos hc2] at hy
      have hlen := congrArg List.length hy
      have hle := (List.dropWhile_sublist (l := t2 ++ r) p).length_le
      rw [List.length_cons] at hlen
      omega
    rw [List.dropWhile_cons_of_neg (by simp [hc])]

theorem lstripWS_stripWS (s : List Char) : lstripWS (stripWS s) = stripWS s := by
  unfold stripWS lstripWS
  exact dropWhile_eq_self_of_prefix (rstripWS_prefixOf (lstripWS s))
    (dropWhile_dropWhile isPySpace s)

theorem rstripWS_stripWS (s : List Char) : rstripWS (stripWS s) = stripWS s := by
  unfold stripWS rstripWS
  rw [List.reverse_reverse, dropWhile_dropWhile]

theorem squeezeGo_eq_self (s : List Char) :
    wsIsSpace s → noTwoWS s →
      ∀ b : Bool, (b = true → ∀ d, s.head? = some d → isPySpace d = false) →
        squeezeGo b s = s := by
  induction s with
  | nil =>
    intro _ _ b _
    rfl
  | cons a s ih =>
    intro h1 h2 b hb
    have h1t : wsIsSpace s := fun c hc => h1 c (List.mem_cons_of_mem a hc)
    have h2t : noTwoWS s := (List.chain'_cons'.mp h2).2
    by_cases hws : isPySpace a = true
    · have ha : a = ' ' := h1 a (List.mem_cons_self a s) hws
      cases b with
      | true => exact absurd (hb rfl a List.head?_cons) (by simp [hws])
      | false =>
        unfold squeezeGo
        rw [if_pos hws, if_neg (by simp)]
        have hhead : ∀ d, s.head? = some d → isPySpace d = false := by
          intro d hd
          have hr := (List.chain'_cons'.mp h2).1 d hd
          by_contra hcon
          exact hr ⟨hws, by simpa using hcon⟩
        rw [ih h1t h2t true (fun _ => hhead), ha]
    · unfold squeezeGo
      rw [if_neg hws]
      rw [ih h1t h2t false (fun hf => by simp at hf)]

/-- C5 (corrected, amended part): `normalize` is idempotent on every input
whose normalized form is left unchanged by the abbreviation-substitution
pass.  (In general a second application can differ, because stripping a
punctuation character can expose a new standalone abbreviation token that
the substitutions, which ran earlier, did not see.) -/
theorem stripWS_of_fixes (s : List Char) (hl : lstripWS s = s) (hr : rstripWS s = s) :
    stripWS s = s := by
  unfold stripWS
  rw [hl, hr]

theorem pipeline_canonical (X : List Char) :
    allKept (stripWS (squeezeWS (stripPunct X)))
      ∧ noTwoWS (stripWS (squeezeWS (stripPunct X)))
      ∧ lstripWS (stripWS (squeezeWS (stripPunct X))) = stripWS (squeezeWS (stripPunct X))
      ∧ rstripWS (stripWS (squeezeWS (stripPunct X))) = stripWS (squeezeWS (stripPunct X)) := by
  refine ⟨?_, ?_, lstripWS_stripWS _, rstripWS_stripWS _⟩
  · intro c hc
    have hc2 := (stripWS_infixOf (squeezeWS (stripPunct X))).sublist.subset hc
    rcases squeezeGo_mem (stripPunct X) false c hc2 with rfl | ⟨hc3, _⟩
    · decide
    · exact stripPunct_allKept X c hc3
  · exact List.Chain'.infix ((squeezeGo_noTwo (stripPunct X) false).1)
      (stripWS_infixOf (squeezeWS (stripPunct X)))

theorem canonical_fix (L : List Char) (hkept : allKept L) (hnt : noTwoWS L)
    (hl : lstripWS L = L) (hr : rstripWS L = L) (hsubs : applySubs L = L) :
    stripWS (squeezeWS (stripPunct (applySubs (List.map lowerChar L)))) = L := by
  rw [map_lowerChar_of_allKept L hkept, hsubs, stripPunct_of_allKept L hkept,
    show squeezeWS L = L from squeezeGo_eq_self L
      (fun c hc hwsc => kept_ws_eq_space c (hkept c hc) hwsc) hnt false
      (fun hf => by simp at hf),
    stripWS_of_fixes L hl hr]

theorem string_data_mk (l : List Char) : (String.mk l).data = l := rfl

theorem normalize_mk_fix (L : List Char) (hkept : allKept L) (hnt : noTwoWS L)
    (hl : lstripWS L = L) (hr : rstripWS L = L) (hsubs : applySubs L = L)
    (hne : ¬ (String.mk L = "")) :
    normalize (String.mk L) = String.mk L := by
  unfold normalize
  rw [if_neg hne]
  exact congrArg String.mk (canonical_fix L hkept hnt hl hr hsubs)

/-- C5 (corrected, amended part): `normalize` is idempotent on every input
whose normalized form is left unchanged by the abbreviation-substitution
pass.  (In general a second application can differ, because stripping a
punctuation character can expose a new standalone abbreviation token that
the substitutions, which ran earlier, did not see.) -/
theorem C5_normalize_conditional_idempotent (t : String)
    (h : applySubs (normalize t).data = (normalize t).data) :
    normalize (normalize t) = normalize t := by
  by_cases ht : t = ""
  · subst ht
    rfl
  · by_cases hL0 : normalize t = ""
    · rw [hL0]
      rfl
    · have hnorm : normalize t
          = String.mk (stripWS (squeezeWS (stripPunct (applySubs (t.data.map lowerChar))))) := by
        unfold normalize
        rw [if_neg ht]
      have hdata : (normalize t).data
          = stripWS (squeezeWS (stripPunct (applySubs (t.data.map lowerChar)))) := by
        rw [hnorm, string_data_mk]
      have hcanon := pipeline_canonical (applySubs (t.data.map lowerChar))
      rw [hdata] at h
      rw [hnorm] at hL0 ⊢
      generalize stripWS (squeezeWS (stripPunct (applySubs (t.data.map lowerChar)))) = L
        at h hL0 hcanon ⊢
      exact normalize_mk_fix L hcanon.1 hcanon.2.1 hcanon.2.2.1 hcanon.2.2.2 h hL0

/-- C5 witness: the conditional idempotence theorem at a concrete string
whose normal form is a fixed point of the substitution pass. -/
theorem C5_witness : normalize (normalize "hello world") = normalize "hello world" :=
  C5_normalize_conditional_idempotent "hello world" (by decide)

/-- C5 counterexample to the claim as stated: `normalize "ml_"` is `"ml"`
(the underscore blocks the word boundary, then is stripped), and a second
application expands the now-standalone token to `"machine learning"`. -/
theorem C5_counterexample : normalize (normalize "ml_") ≠ normalize "ml_" := by decide

end ResumeAI
